import Mathlib

/-
Verification development for the Unified Smart Calendar System.

The repository ships its React frontend (services/api.js, PublicBookingPage)
while the backend scheduling engine described in the design document
(interval utilities, conflict detector, availability engine, booking
transactor, mirror sync engine) is not part of the source tree here.
Backend components are therefore modelled from the design document, and
frontend components are translated from the JavaScript sources.
All instants are minutes since an arbitrary epoch, encoded as Nat.
-/

namespace CalendarSys

/-- A half-open time interval [s, e). -/
structure Ival where
  s : Nat
  e : Nat
deriving DecidableEq

/-- Modelled from the spec: interval utility `overlaps(a, b)` of section 4.1
(backend source absent): `a.start < b.end && b.start < a.end`, strict overlap. -/
def overlaps (a b : Ival) : Bool :=
  decide (a.s < b.e) && decide (b.s < a.e)

/-- Modelled from the spec: the merge loop of `mergeIntervals` of section 4.1
(backend source absent): fold over the sorted list, extending the running
merge while the next interval starts strictly before its end (touching
endpoints are adjacent, not overlapping, and are not merged). -/
def mergeRun : Ival → List Ival → List Ival
  | cur, [] => [cur]
  | cur, x :: xs =>
      if x.s < cur.e then mergeRun ⟨cur.s, max cur.e x.e⟩ xs
      else cur :: mergeRun x xs

/-- Modelled from the spec: `mergeIntervals` of section 4.1 (backend source
absent): sort by start ascending, then merge overlapping intervals. -/
def mergeIntervals (l : List Ival) : List Ival :=
  match List.insertionSort (fun a b => a.s ≤ b.s) l with
  | [] => []
  | x :: xs => mergeRun x xs

/-- Modelled from the spec: the linear merge-style sweep of `subtract` of
section 4.1 (backend source absent). The fuel argument bounds the recursion;
each step drops an element of one of the two lists, so
`ws.length + bs.length` fuel always suffices. -/
def subGo : Nat → List Ival → List Ival → List Ival
  | 0, ws, _ => ws
  | _ + 1, [], _ => []
  | _ + 1, w :: ws, [] => w :: ws
  | f + 1, w :: ws, b :: bs =>
      if b.e ≤ w.s then subGo f (w :: ws) bs
      else if w.e ≤ b.s then w :: subGo f ws (b :: bs)
      else
        (if w.s < b.s then [⟨w.s, b.s⟩] else []) ++
        (if b.e < w.e then subGo f (⟨b.e, w.e⟩ :: ws) bs
         else subGo f ws (b :: bs))

/-- Modelled from the spec: `subtract(windows, busy)` of section 4.1 (backend
source absent): sub-intervals of the windows not covered by busy time. -/
def subtract (ws bs : List Ival) : List Ival :=
  subGo (ws.length + bs.length) ws bs

/-- Modelled from the spec: the slot emission loop of section 4.3 step 5
(backend source absent): starting at the free sub-interval start, emit one
slot of exactly the requested duration and advance by the duration while the
remaining span is at least the duration. The fuel argument bounds the
recursion; `e - s` fuel always suffices for a positive duration. -/
def slotsGo : Nat → Nat → Nat → Nat → List Ival
  | 0, _, _, _ => []
  | f + 1, dur, s, e =>
      if s + dur ≤ e then ⟨s, s + dur⟩ :: slotsGo f dur (s + dur) e else []

/-- Modelled from the spec: slots emitted for one free sub-interval [s, e)
(section 4.3 step 5; backend source absent). A zero duration emits nothing. -/
def slotsOfFree (dur s e : Nat) : List Ival :=
  if dur = 0 then [] else slotsGo (e - s) dur s e

/-- Modelled from the spec: section 4.3 steps 5 and 6 (backend source
absent): emit slots for every free sub-interval, then discard any slot whose
start is before the now cutoff. -/
def emitSlots (now dur : Nat) (free : List Ival) : List Ival :=
  (free.flatMap fun iv => slotsOfFree dur iv.s iv.e).filter fun sl => decide (now ≤ sl.s)

/-- Modelled from the spec: section 4.3 steps 3 and 4 (backend source
absent): merge the availability windows, merge the busy timeline, subtract. -/
def availFree (windows busy : List Ival) : List Ival :=
  subtract (mergeIntervals windows) (mergeIntervals busy)

/-- Modelled from the spec: the full availability pipeline of section 4.3
(backend source absent): free sub-intervals, slot emission, now cutoff. -/
def computeSlots (windows busy : List Ival) (now dur : Nat) : List Ival :=
  emitSlots now dur (availFree windows busy)

/-! Conflict detector, section 4.2. -/

/-- A calendar event reduced to what conflict detection needs: an id and a
half-open time range. -/
structure Event where
  eid : Nat
  s : Nat
  e : Nat
deriving DecidableEq

/-- Order events by ascending start time. -/
def byStart (a b : Event) : Prop := a.s ≤ b.s

instance : DecidableRel byStart := fun a b => Nat.decLe a.s b.s

instance : IsTotal Event byStart := ⟨fun a b => Nat.le_total a.s b.s⟩

instance : IsTrans Event byStart := ⟨fun _ _ _ => Nat.le_trans⟩

/-- Strict overlap between two events, the section 4.1 boundary policy. -/
def evOverlaps (a b : Event) : Bool := overlaps ⟨a.s, a.e⟩ ⟨b.s, b.e⟩

/-- Modelled from the spec: the sweep of section 4.2 (backend source
absent). Process events in ascending start order, keeping the currently
open events; for a new event, first evict every open event whose end is at
or before the new start, then record a conflict pair with each remaining
open event, then open the new event. -/
def sweepAux : List Event → List Event → List (Nat × Nat)
  | _, [] => []
  | opn, x :: rest =>
      let keep := opn.filter fun o => decide (x.s < o.e)
      keep.map (fun o => (o.eid, x.eid)) ++ sweepAux (keep ++ [x]) rest

/-- Modelled from the spec: the conflict detector of section 4.2 (backend
source absent): drop malformed events (end at or before start, the
data-quality rule), sort by start, sweep. Output is the list of conflicting
event-id pairs, older event first. -/
def detectConflicts (l : List Event) : List (Nat × Nat) :=
  sweepAux [] (List.insertionSort byStart (l.filter fun ev => decide (ev.s < ev.e)))

/-- An event id is flagged as conflicted when it appears on either side of
some recorded conflict pair. -/
def conflicted (ps : List (Nat × Nat)) (n : Nat) : Bool :=
  ps.any fun p => decide (p.1 = n) || decide (p.2 = n)

/-! Booking transactor, section 4.4. -/

/-- Booking status: the transactor creates the row pending, then finalizes
it to confirmed or failed. -/
inductive BStatus
  | pending
  | confirmed
  | failed
deriving DecidableEq

/-- A booking row: owner, reserved slot, status. -/
structure Booking where
  owner : Nat
  slot : Ival
  status : BStatus
deriving DecidableEq

/-- Caller-visible result of one bookSlot invocation. -/
inductive BookResult
  | booked
  | slotUnavailable
  | providerFailed
deriving DecidableEq

/-- Modelled from the spec: section 4.4 step 2 (backend source absent):
does some booking of the same owner in pending or confirmed state hold a
slot strictly overlapping the requested one. -/
def holdsOverlapping (st : List Booking) (ow : Nat) (slot : Ival) : Bool :=
  st.any fun b =>
    decide (b.owner = ow) &&
    (decide (b.status = BStatus.pending) || decide (b.status = BStatus.confirmed)) &&
    overlaps b.slot slot

/-- Modelled from the spec: the uniqueness constraint of section 4.4 step 3
(backend source absent): a pending or confirmed row with the same owner and
the same normalized slot start already exists. -/
def reserveGuard (st : List Booking) (ow : Nat) (slot : Ival) : Bool :=
  st.any fun b =>
    decide (b.owner = ow) && decide (b.slot.s = slot.s) &&
    (decide (b.status = BStatus.pending) || decide (b.status = BStatus.confirmed))

/-- Modelled from the spec: section 4.4 steps 1 and 2 (backend source
absent): the freshly recomputed free-slot check plus the overlapping-booking
check, evaluated against a state snapshot. -/
def checkOk (windows busy : List Ival) (now dur : Nat)
    (snap : List Booking) (ow : Nat) (slot : Ival) : Bool :=
  decide (slot ∈ computeSlots windows busy now dur) && !holdsOverlapping snap ow slot

/-- Modelled from the spec: the atomic reservation of section 4.4 step 3
(backend source absent): insert a pending row unless the uniqueness
constraint rejects it. Returns whether the reservation won. -/
def reserve (ow : Nat) (slot : Ival) (st : List Booking) : Bool × List Booking :=
  if reserveGuard st ow slot then (false, st)
  else (true, ⟨ow, slot, BStatus.pending⟩ :: st)

/-- Modelled from the spec: section 4.4 step 4 (backend source absent):
after the external event creation either succeeds or fails, transition the
pending row for this owner and slot start to confirmed or failed. -/
def finalize (extOk : Bool) (ow : Nat) (slot : Ival) (st : List Booking) : List Booking :=
  st.map fun b =>
    if b.owner = ow ∧ b.slot.s = slot.s ∧ b.status = BStatus.pending then
      { b with status := if extOk then BStatus.confirmed else BStatus.failed }
    else b

/-- Modelled from the spec: one bookSlot invocation of section 4.4 (backend
source absent). The recheck of steps 1 and 2 runs against the state
snapshot taken when the invocation started; the reservation and the
finalization run against the current state. `extOk` is the outcome of the
external provider call of step 4. -/
def bookSlot (windows busy : List Ival) (now dur : Nat) (extOk : Bool)
    (ow : Nat) (slot : Ival) (snap st : List Booking) : BookResult × List Booking :=
  if !checkOk windows busy now dur snap ow slot then (BookResult.slotUnavailable, st)
  else
    let r := reserve ow slot st
    if !r.1 then (BookResult.slotUnavailable, st)
    else if extOk then (BookResult.booked, finalize true ow slot r.2)
    else (BookResult.providerFailed, finalize false ow slot r.2)

/-- Number of confirmed bookings a state holds for one owner and slot. -/
def countConfirmed (st : List Booking) (ow : Nat) (slot : Ival) : Nat :=
  (st.filter fun b =>
    decide (b.owner = ow) && decide (b.slot = slot) &&
    decide (b.status = BStatus.confirmed)).length

/-! Mirror sync engine, section 4.5. -/

/-- A source-account event as the mirror sync engine sees it. -/
structure SrcEvent where
  acc : Nat
  ext : Nat
  s : Nat
  e : Nat
  isMirror : Bool
deriving DecidableEq

/-- A MirrorMapping row: source account, source external event id, target
account, last-observed source time range. -/
structure Mapping where
  srcAcc : Nat
  srcExt : Nat
  tgt : Nat
  obsS : Nat
  obsE : Nat
deriving DecidableEq

/-- One unit of mirror work: mirror the event with external id `ext` and
range [s, e) from account `src` into account `tgt`. -/
structure MirrorItem where
  src : Nat
  tgt : Nat
  ext : Nat
  s : Nat
  e : Nat
deriving DecidableEq

/-- The idempotency key of a work item. -/
def itemKey (it : MirrorItem) : Nat × Nat × Nat := (it.src, it.ext, it.tgt)

/-- Does a mapping row carry the key of a work item. -/
def rowMatches (it : MirrorItem) (mp : Mapping) : Bool :=
  decide (mp.srcAcc = it.src) && decide (mp.srcExt = it.ext) && decide (mp.tgt = it.tgt)

/-- Modelled from the spec: section 4.5 step 1 (backend source absent): for
every ordered pair of distinct active accounts, one work item per non-mirror
source event of the source account. Mirror events are never enumerated. -/
def itemsOf (accounts : List Nat) (events : List SrcEvent) : List MirrorItem :=
  accounts.flatMap fun src =>
    accounts.flatMap fun tgt =>
      if src = tgt then []
      else
        (events.filter fun ev => decide (ev.acc = src) && !ev.isMirror).map
          fun ev => ⟨src, tgt, ev.ext, ev.s, ev.e⟩

/-- Update the observed range of a mapping row when it carries the key of
the work item; leave any other row alone. -/
def updRow (it : MirrorItem) (r : Mapping) : Mapping :=
  if rowMatches it r then { r with obsS := it.s, obsE := it.e } else r

/-- Modelled from the spec: section 4.5 step 2 (backend source absent): look
the mapping up by its key; if absent, write the placeholder event and the
mapping (counted as writes); if present with a changed range, update both
(counted as a write); if present and unchanged, no operation. Returns the
number of writes performed and the new mapping table. -/
def processItem (m : List Mapping) (it : MirrorItem) : Nat × List Mapping :=
  match m.find? (rowMatches it) with
  | none => (1, m ++ [⟨it.src, it.ext, it.tgt, it.s, it.e⟩])
  | some mp =>
      if mp.obsS = it.s ∧ mp.obsE = it.e then (0, m)
      else (1, m.map (updRow it))

/-- Fold `processItem` over a work list, accumulating the write count. -/
def processItems (items : List MirrorItem) (m : List Mapping) : Nat × List Mapping :=
  match items with
  | [] => (0, m)
  | it :: rest =>
      let p := processItem m it
      let q := processItems rest p.2
      (p.1 + q.1, q.2)

/-- Modelled from the spec: `syncMirrors(owner)` of section 4.5 (backend
source absent), over the owners active accounts and events. -/
def syncMirrors (accounts : List Nat) (events : List SrcEvent)
    (m : List Mapping) : Nat × List Mapping :=
  processItems (itemsOf accounts events) m

/-! Query boundary, section 6. -/

/-- An external calendar connection of the owner: provider tag and active
flag. -/
structure Account where
  provider : String
  active : Bool
deriving DecidableEq

/-- Provider tags of the accounts the owner has active. -/
def activeProviders (accs : List Account) : List String :=
  ((accs.filter fun a => a.active).map fun a => a.provider).eraseDups

/-- Everything of one owner the two slot queries read. -/
structure OwnerCfg where
  windows : List Ival
  busy : List Ival
  accounts : List Account

/-- Modelled from the spec: `getFreeSlots` of section 6 (backend source
absent): the manual free-slot query, the availability pipeline output. -/
def getFreeSlots (cfg : OwnerCfg) (now dur : Nat) : List Ival :=
  computeSlots cfg.windows cfg.busy now dur

/-- Modelled from the spec: `getPublicSlots(username, ...)` of section 6
(backend source absent): resolve the username, then return the availability
pipeline output together with the providers the owner has active. -/
def getPublicSlots (users : List (String × OwnerCfg)) (uname : String)
    (now dur : Nat) : Option (List Ival × List String) :=
  (users.find? fun u => decide (u.1 = uname)).map fun u =>
    (computeSlots u.2.windows u.2.busy now dur, activeProviders u.2.accounts)

/-! Frontend embeddings, translated from frontend/src. -/

/-- Is `pre` a leading segment of `l`. Helper for the substring test the
JavaScript `String.prototype.includes` performs. -/
def charsLead : List Char → List Char → Bool
  | _, [] => true
  | [], _ :: _ => false
  | h :: hs, n :: ns => decide (h = n) && charsLead hs ns

/-- Does `needle` occur contiguously anywhere inside `hay`. -/
def charsHave : List Char → List Char → Bool
  | [], needle => charsLead [] needle
  | h :: hs, needle => charsLead (h :: hs) needle || charsHave hs needle

/-- `hay.includes(needle)` of JavaScript strings. -/
def strIncludes (hay needle : String) : Bool :=
  charsHave hay.toList needle.toList

/-- ASCII lowercase of one character, as `String.prototype.toLowerCase`
acts on the ASCII range the email heuristics look at. -/
def lowerChar (c : Char) : Char :=
  if 'A' ≤ c ∧ c ≤ 'Z' then Char.ofNat (c.toNat + 32) else c

/-- ASCII lowercase of a string. -/
def asciiLower (s : String) : String := String.mk (s.toList.map lowerChar)

/-- From PublicBookingPage (part_002) `detectProviderFromEmail`: lowercase
the email, infer google from an @gmail address and microsoft from
@outlook/@hotmail/@live/@microsoft, but only when that provider is among the
available ones; otherwise no inference. -/
def detectProviderFromEmail (availableProviders : List String) (value : String) :
    Option String :=
  let lower := asciiLower value
  if availableProviders.contains "google" && strIncludes lower "@gmail" then
    some "google"
  else if availableProviders.contains "microsoft" &&
      (strIncludes lower "@outlook" || strIncludes lower "@hotmail" ||
       strIncludes lower "@live" || strIncludes lower "@microsoft") then
    some "microsoft"
  else none

/-- From PublicBookingPage (part_002) `loadSlots` lines 60-63: after a slot
response, keep the previous meeting provider when it is still available,
otherwise take the first reported provider, falling back to the string
google when the list is empty or its head is falsy. -/
def updateMeetingProviderAfterLoad (providers : List String) (prev : String) : String :=
  if providers.contains prev then prev
  else
    match providers.head? with
    | some p => if p = "" then "google" else p
    | none => "google"

/-- From PublicBookingPage (part_002) `handleClientEmailChange`: set the
meeting provider to the inferred one when the email domain infers one,
otherwise leave it unchanged. -/
def handleClientEmailChange (availableProviders : List String) (prev : String)
    (value : String) : String :=
  match detectProviderFromEmail availableProviders value with
  | some p => p
  | none => prev

/-- From PublicBookingPage (part_002) provider buttons: clicking a provider
selects it only when it is among the available ones (the button is disabled
otherwise). -/
def clickProvider (availableProviders : List String) (prev : String)
    (choice : String) : String :=
  if availableProviders.contains choice then choice else prev

/-- Result of the booking API call, as the frontend handler sees it:
either a created booking id, or a failure with an optional HTTP status and a
server message. -/
inductive ApiResult
  | ok (bookingId : Nat)
  | fail (status : Option Nat) (msg : String)
deriving DecidableEq

/-- The state `submitBooking` of PublicBookingPage.jsx lines 106-138 leaves
behind: the confirmed booking if any, the error banner text, and whether
the handler re-queried the free slots. -/
structure SubmitOutcome where
  booking : Option Nat
  errorMsg : String
  reloaded : Bool
deriving DecidableEq

/-- From PublicBookingPage.jsx `submitBooking` lines 106-138: validation
guards, then the API call; on success store the booking and reload slots;
on a 409 show the slot-taken message and reload slots; on any other failure
show the failure message and do not reload. -/
def submitBooking (hasSlot nameNonEmpty emailHasAt : Bool) (resp : ApiResult) :
    SubmitOutcome :=
  if !hasSlot then ⟨none, "", false⟩
  else if !nameNonEmpty then ⟨none, "Please enter your name", false⟩
  else if !emailHasAt then ⟨none, "Please enter a valid email", false⟩
  else
    match resp with
    | ApiResult.ok bid => ⟨some bid, "", true⟩
    | ApiResult.fail status msg =>
        if status = some 409 then
          ⟨none, "Slot no longer available. Please pick another time.", true⟩
        else ⟨none, msg, false⟩

/-- The PublicBookingPage state the slot loader touches. -/
structure LoadState where
  latest : Nat
  slots : List Ival
  providers : List String
  meetingProvider : String
  errorMsg : String
  fetching : Bool
  initialLoading : Bool
deriving DecidableEq

/-- A slot-load response: the slot list and provider list of a successful
request, or a failure message. -/
inductive LoadResp
  | ok (slots : List Ival) (provs : List String)
  | fail (msg : String)
deriving DecidableEq

/-- From PublicBookingPage `loadSlots` entry (both versions, lines 39-48 of
the jsx and 43-53 of part_002): take a fresh request id by incrementing the
latest-request counter, raise the loading flags, clear the error. Returns
the fresh id with the new state. -/
def startLoad (silent : Bool) (st : LoadState) : Nat × LoadState :=
  let rid := st.latest + 1
  (rid,
    { st with
        latest := rid
        initialLoading := if silent then st.initialLoading else true
        fetching := true
        errorMsg := "" })

/-- From PublicBookingPage `loadSlots` response handling (jsx lines 50-62,
part_002 lines 54-72): every update is guarded by the request id still
being the latest; a stale response changes nothing. A current success
stores the slots and providers and re-derives the meeting provider; a
current failure stores the message and clears the slots; either way the
loading flags drop. -/
def applyResponse (rid : Nat) (resp : LoadResp) (st : LoadState) : LoadState :=
  if rid ≠ st.latest then st
  else
    match resp with
    | LoadResp.ok slots provs =>
        { st with
            slots := slots
            providers := provs
            meetingProvider := updateMeetingProviderAfterLoad provs st.meetingProvider
            fetching := false
            initialLoading := false }
    | LoadResp.fail msg =>
        { st with
            errorMsg := msg
            slots := []
            fetching := false
            initialLoading := false }

/-- A failed axios response as the interceptor of services/api.js sees it:
the optional HTTP status and the request URL. -/
structure ApiError where
  status : Option Nat
  url : String
deriving DecidableEq

/-- From services/api.js response interceptor lines 29-40: redirect to
/login exactly when the status is 401, the request URL does not contain
/check-auth, and NODE_ENV is production. -/
def interceptorRedirects (prodEnv : Bool) (e : ApiError) : Bool :=
  (decide (e.status = some 401) && !strIncludes e.url "/check-auth") && prodEnv

/-- From services/api.js response interceptor line 39: the error is always
re-rejected to the caller. -/
def interceptorResult (e : ApiError) : Except ApiError Unit :=
  Except.error e

/-! Theorems. -/

/-- A busy interval extending past a window's end is still subtracted from
the following window. -/
theorem subtract_straddles_windows :
    subtract [⟨0, 10⟩, ⟨12, 20⟩] [⟨5, 15⟩] = [⟨0, 5⟩, ⟨15, 20⟩] := by decide

/-- A busy interval spanning the boundary of two touching windows is
subtracted from both. -/
theorem subtract_touching_windows :
    subtract [⟨0, 10⟩, ⟨10, 20⟩] [⟨8, 12⟩] = [⟨0, 8⟩, ⟨12, 20⟩] := by decide

/-- Boolean overlap unfolds to the two strict comparisons. -/
theorem evOverlaps_iff (x y : Event) :
    evOverlaps x y = true ↔ (x.s < y.e ∧ y.s < x.e) := by
  simp [evOverlaps, overlaps]

/-- An inferred provider is always among the available ones. -/
theorem detectProvider_mem (providers : List String) (value : String) (p : String)
    (h : detectProviderFromEmail providers value = some p) : p ∈ providers := by
  simp only [detectProviderFromEmail] at h
  split_ifs at h with h1 h2
  · cases h
    simp only [Bool.and_eq_true] at h1
    simpa using h1.1
  · cases h
    simp only [Bool.and_eq_true] at h2
    simpa using h2.1

/-- C3: overlaps is exactly the strict comparison pair; an event ending
exactly when another starts is never a conflict, an end one past the start
is; and the same boundary policy governs the conflict detector and the
booking transactor overlap check. -/
theorem overlaps_boundary_policy :
    (∀ a b : Ival, overlaps a b = true ↔ (a.s < b.e ∧ b.s < a.e))
    ∧ (∀ A B : Ival, A.e = B.s → overlaps A B = false)
    ∧ (∀ A B : Ival, A.s < A.e → B.s < B.e → A.e = B.s + 1 → overlaps A B = true)
    ∧ (∀ x y : Event, x.e = y.s → detectConflicts [x, y] = [])
    ∧ (∀ (ow : Nat) (b slot : Ival), b.e = slot.s →
        holdsOverlapping [⟨ow, b, BStatus.confirmed⟩] ow slot = false) := by
  refine ⟨?_, ?_, ?_, ?_, ?_⟩
  · intro a b; simp [overlaps]
  · intro A B h; simp [overlaps]; omega
  · intro A B h1 h2 h; simp [overlaps]; omega
  · intro x y h
    unfold detectConflicts
    by_cases hx : x.s < x.e
    · by_cases hy : y.s < y.e
      · have hfil : ([x, y].filter fun ev => decide (ev.s < ev.e)) = [x, y] := by
          simp [hx, hy]
        have hle : byStart x y := by unfold byStart; omega
        have hnlt : ¬ y.s < x.e := by omega
        rw [hfil]
        have hsort : List.insertionSort byStart [x, y] = [x, y] := by
          simp [List.insertionSort, List.orderedInsert, hle]
        rw [hsort]
        simp [sweepAux, hnlt]
      · have hfil : ([x, y].filter fun ev => decide (ev.s < ev.e)) = [x] := by
          simp [hx, hy]
        rw [hfil]
        simp [List.insertionSort, List.orderedInsert, sweepAux]
    · by_cases hy : y.s < y.e
      · have hfil : ([x, y].filter fun ev => decide (ev.s < ev.e)) = [y] := by
          simp [hx, hy]
        rw [hfil]
        simp [List.insertionSort, List.orderedInsert, sweepAux]
      · have hfil : ([x, y].filter fun ev => decide (ev.s < ev.e)) = [] := by
          simp [hx, hy]
        rw [hfil]
        simp [List.insertionSort, sweepAux]
  · intro ow b slot h
    simp [holdsOverlapping, overlaps]
    omega

/-- Witness for overlaps_boundary_policy at concrete intervals. -/
theorem overlaps_boundary_policy_witness :
    overlaps ⟨0, 10⟩ ⟨10, 20⟩ = false ∧ overlaps ⟨0, 11⟩ ⟨10, 20⟩ = true :=
  ⟨overlaps_boundary_policy.2.1 ⟨0, 10⟩ ⟨10, 20⟩ rfl,
   overlaps_boundary_policy.2.2.1 ⟨0, 11⟩ ⟨10, 20⟩ (by decide) (by decide) rfl⟩

/-- C6: the public booking query returns both the slot list and the active
providers of the resolved owner, and its slot list is the same availability
pipeline output the manual free-slot query returns. -/
theorem public_slots_shape (users : List (String × OwnerCfg)) (uname : String)
    (cfg : OwnerCfg) (now dur : Nat)
    (h : users.find? (fun u => decide (u.1 = uname)) = some (uname, cfg)) :
    getPublicSlots users uname now dur =
      some (getFreeSlots cfg now dur, activeProviders cfg.accounts) := by
  simp [getPublicSlots, h, getFreeSlots, computeSlots]

/-- Witness for public_slots_shape on a one-user table. -/
theorem public_slots_shape_witness :
    getPublicSlots [("alice", ⟨[⟨600, 1080⟩], [⟨840, 900⟩], [⟨"google", true⟩]⟩)]
        "alice" 0 30 =
      some (getFreeSlots ⟨[⟨600, 1080⟩], [⟨840, 900⟩], [⟨"google", true⟩]⟩ 0 30,
        activeProviders [⟨"google", true⟩]) :=
  public_slots_shape _ "alice" _ 0 30 rfl

/-- C7: with the form guards satisfied, the booking handler stores the
booking and reloads slots on success, shows the dedicated slot-taken
message and reloads slots on a 409, and on any other failure shows the
server message without reloading, so a lost race is distinguishable from
every generic failure. -/
theorem submit_booking_conflict_status (resp : ApiResult) :
    (∀ bid : Nat, resp = ApiResult.ok bid →
      submitBooking true true true resp = ⟨some bid, "", true⟩)
    ∧ (∀ msg : String, resp = ApiResult.fail (some 409) msg →
        submitBooking true true true resp =
          ⟨none, "Slot no longer available. Please pick another time.", true⟩)
    ∧ (∀ (status : Option Nat) (msg : String), status ≠ some 409 →
        resp = ApiResult.fail status msg →
        submitBooking true true true resp = ⟨none, msg, false⟩)
    ∧ (∀ (status : Option Nat) (msg msg2 : String), status ≠ some 409 →
        submitBooking true true true (ApiResult.fail (some 409) msg2) ≠
          submitBooking true true true (ApiResult.fail status msg)) := by
  refine ⟨?_, ?_, ?_, ?_⟩
  · intro bid h; subst h; rfl
  · intro msg h; subst h; simp [submitBooking]
  · intro status msg h hr; subst hr; simp [submitBooking, h]
  · intro status msg msg2 h
    simp [submitBooking, h]

/-- Witness for submit_booking_conflict_status at a generic 500 failure. -/
theorem submit_booking_conflict_status_witness :
    submitBooking true true true (ApiResult.fail (some 500) "boom") =
      ⟨none, "boom", false⟩ :=
  (submit_booking_conflict_status (ApiResult.fail (some 500) "boom")).2.2.1
    (some 500) "boom" (by decide) rfl

/-- C8 counterexample: after a slot response reporting zero active
providers, the page selects the string google, which is not one of the
owners active providers. -/
theorem provider_fallback_counterexample :
    updateMeetingProviderAfterLoad [] "microsoft" = "google" ∧
    ¬ ("google" ∈ ([] : List String)) := by
  exact ⟨rfl, by simp⟩

/-- C8 amended: whenever the owner has at least one active provider (with
the provider tags google or microsoft of the data model), the selected
meeting provider is always one of the active providers: the load fallback,
the email-domain inference, and the provider buttons all preserve this;
with zero active providers the page defaults to the string google. -/
theorem provider_selection_active :
    (∀ (providers : List String) (prev : String), providers ≠ [] →
        (∀ p ∈ providers, p = "google" ∨ p = "microsoft") →
        updateMeetingProviderAfterLoad providers prev ∈ providers)
    ∧ (∀ (providers : List String) (prev value : String), prev ∈ providers →
        handleClientEmailChange providers prev value ∈ providers)
    ∧ (∀ (providers : List String) (prev choice : String), prev ∈ providers →
        clickProvider providers prev choice ∈ providers)
    ∧ (∀ (providers : List String) (value p : String),
        detectProviderFromEmail providers value = some p → p ∈ providers)
    ∧ (∀ prev : String, updateMeetingProviderAfterLoad [] prev = "google") := by
  refine ⟨?_, ?_, ?_, ?_, ?_⟩
  · intro providers prev hne htags
    unfold updateMeetingProviderAfterLoad
    split_ifs with hc
    · simpa using hc
    · cases providers with
      | nil => exact absurd rfl hne
      | cons p rest =>
          simp only [List.head?]
          have hp := htags p (List.mem_cons_self p rest)
          have hpe : ¬ p = "" := by rcases hp with h | h <;> simp [h]
          simp [hpe]
  · intro providers prev value hprev
    unfold handleClientEmailChange
    cases h : detectProviderFromEmail providers value with
    | none => exact hprev
    | some q => exact detectProvider_mem providers value q h
  · intro providers prev choice hprev
    unfold clickProvider
    split_ifs with hc
    · simpa using hc
    · exact hprev
  · exact detectProvider_mem
  · intro prev; rfl

/-- Witness for provider_selection_active with one active provider. -/
theorem provider_selection_active_witness :
    updateMeetingProviderAfterLoad ["microsoft"] "google" ∈ ["microsoft"] :=
  provider_selection_active.1 ["microsoft"] "google" (by decide) (by decide)

/-- C9: every state update of the slot loader is guarded by the response id
still being the latest, so a stale response changes nothing, and each load
takes a fresh strictly larger request id. -/
theorem stale_response_guard :
    (∀ (rid : Nat) (resp : LoadResp) (st : LoadState),
        rid ≠ st.latest → applyResponse rid resp st = st)
    ∧ (∀ (silent : Bool) (st : LoadState),
        (startLoad silent st).1 = st.latest + 1 ∧
        (startLoad silent st).2.latest = st.latest + 1) := by
  constructor
  · intro rid resp st h
    simp [applyResponse, h]
  · intro silent st
    exact ⟨rfl, rfl⟩

/-- Witness for stale_response_guard: a response with id 1 while the latest
id is 2 leaves the state untouched. -/
theorem stale_response_guard_witness :
    applyResponse 1 (LoadResp.ok [] []) ⟨2, [], [], "google", "", true, true⟩ =
      ⟨2, [], [], "google", "", true, true⟩ :=
  stale_response_guard.1 1 (LoadResp.ok [] []) ⟨2, [], [], "google", "", true, true⟩
    (by decide)

/-- C10: a 401 on a check-auth URL never redirects; any other 401 redirects
exactly when the environment is production; and the interceptor always
re-rejects the error to the caller. -/
theorem auth_redirect_policy :
    (∀ (prodEnv : Bool) (e : ApiError), strIncludes e.url "/check-auth" = true →
        interceptorRedirects prodEnv e = false)
    ∧ (∀ (prodEnv : Bool) (e : ApiError),
        interceptorRedirects prodEnv e = true ↔
          (e.status = some 401 ∧ strIncludes e.url "/check-auth" = false ∧
            prodEnv = true))
    ∧ (∀ e : ApiError, interceptorResult e = Except.error e) := by
  refine ⟨?_, ?_, fun e => rfl⟩
  · intro p e h
    simp [interceptorRedirects, h]
  · intro p e
    simp [interceptorRedirects, Bool.and_eq_true, and_assoc]

/-- Witness for auth_redirect_policy: a 401 from the check-auth endpoint in
production does not redirect. -/
theorem auth_redirect_policy_witness :
    interceptorRedirects true ⟨some 401, "/auth/check-auth"⟩ = false :=
  auth_redirect_policy.1 true ⟨some 401, "/auth/check-auth"⟩ (by decide)

/-- With enough fuel, the emission loop produces exactly one slot per full
duration that fits, the first at the interval start, each next advanced by
the duration. -/
theorem slotsGo_eq (dur : Nat) (hdur : 0 < dur) :
    ∀ f s e : Nat, e - s ≤ f →
      slotsGo f dur s e =
        (List.range ((e - s) / dur)).map fun i => ⟨s + i * dur, s + i * dur + dur⟩ := by
  intro f
  induction f with
  | zero =>
      intro s e h
      have h0 : e - s = 0 := Nat.le_zero.mp h
      simp [slotsGo, h0]
  | succ f ih =>
      intro s e h
      by_cases hle : s + dur ≤ e
      · have h1 : e - (s + dur) ≤ f := by omega
        have h2 : (e - s) / dur = (e - (s + dur)) / dur + 1 := by
          have hsub : e - (s + dur) = e - s - dur := by omega
          rw [hsub, ← Nat.div_eq_sub_div hdur (by omega)]
        rw [slotsGo]
        simp only [if_pos hle]
        rw [ih (s + dur) e h1, h2, List.range_succ_eq_map]
        simp only [List.map_cons, List.map_map]
        refine List.cons_eq_cons.mpr ⟨by simp, ?_⟩
        apply List.map_congr_left
        intro i _
        simp [Function.comp, Ival.mk.injEq, Nat.succ_mul]
        omega
      · have h0 : (e - s) / dur = 0 := Nat.div_eq_of_lt (by omega)
        rw [slotsGo]
        simp [hle, h0]

/-- C2: slot emission over a free sub-interval produces exactly the
full-duration slots from the interval start, advancing by the duration,
discarding a final shorter span; every slot has exact duration and lies in
the free interval; no emitted slot starts before the now cutoff; and the
Monday example (window 10:00-18:00, busy 14:00-15:00, 30-minute slots)
contains the slots ending at 14:00 and starting at 15:00 and no slot
overlapping 14:00-15:00. -/
theorem availability_slot_emission (dur : Nat) (hdur : 0 < dur) :
    (∀ s e : Nat,
        slotsOfFree dur s e =
          (List.range ((e - s) / dur)).map fun i => ⟨s + i * dur, s + i * dur + dur⟩)
    ∧ (∀ s e : Nat, ∀ sl ∈ slotsOfFree dur s e,
        sl.e = sl.s + dur ∧ s ≤ sl.s ∧ sl.e ≤ e)
    ∧ (∀ (now : Nat) (free : List Ival), ∀ sl ∈ emitSlots now dur free, now ≤ sl.s)
    ∧ ((⟨810, 840⟩ : Ival) ∈ computeSlots [⟨600, 1080⟩] [⟨840, 900⟩] 0 30
        ∧ (⟨900, 930⟩ : Ival) ∈ computeSlots [⟨600, 1080⟩] [⟨840, 900⟩] 0 30
        ∧ ∀ sl ∈ computeSlots [⟨600, 1080⟩] [⟨840, 900⟩] 0 30,
            overlaps sl ⟨840, 900⟩ = false) := by
  have hchar : ∀ s e : Nat,
      slotsOfFree dur s e =
        (List.range ((e - s) / dur)).map fun i => ⟨s + i * dur, s + i * dur + dur⟩ := by
    intro s e
    unfold slotsOfFree
    rw [if_neg (Nat.pos_iff_ne_zero.mp hdur)]
    exact slotsGo_eq dur hdur (e - s) s e le_rfl
  refine ⟨hchar, ?_, ?_, by decide, by decide, by decide⟩
  · intro s e sl hsl
    rw [hchar] at hsl
    rcases List.mem_map.mp hsl with ⟨i, hi, rfl⟩
    have hin : i < (e - s) / dur := List.mem_range.mp hi
    refine ⟨rfl, Nat.le_add_right s (i * dur), ?_⟩
    have h1 : i * dur + dur = (i + 1) * dur := by rw [Nat.succ_mul]
    have h2 : (i + 1) * dur ≤ ((e - s) / dur) * dur :=
      Nat.mul_le_mul_right dur hin
    have h3 : ((e - s) / dur) * dur ≤ e - s := Nat.div_mul_le_self (e - s) dur
    simp only []
    omega
  · intro now free sl hsl
    unfold emitSlots at hsl
    have := (List.mem_filter.mp hsl).2
    simpa using this

/-- Witness for availability_slot_emission at duration 30 over [0, 65). -/
theorem availability_slot_emission_witness :
    slotsOfFree 30 0 65 =
      (List.range ((65 - 0) / 30)).map fun i => ⟨0 + i * 30, 0 + i * 30 + 30⟩ :=
  (availability_slot_emission 30 (by decide)).1 0 65

/-- Two distinct members of a list occur in one order or the other. -/
theorem pair_sublist_of_mem {α : Type} {x y : α} {l : List α}
    (hx : x ∈ l) (hy : y ∈ l) (hne : x ≠ y) :
    [x, y].Sublist l ∨ [y, x].Sublist l := by
  induction l with
  | nil => cases hx
  | cons a l ih =>
      rcases List.mem_cons.mp hx with rfl | hx'
      · have hy' : y ∈ l := by
          rcases List.mem_cons.mp hy with h | h
          · exact absurd h.symm hne
          · exact h
        exact Or.inl (List.Sublist.cons₂ x (List.singleton_sublist.mpr hy'))
      · rcases List.mem_cons.mp hy with rfl | hy'
        · exact Or.inr (List.Sublist.cons₂ y (List.singleton_sublist.mpr hx'))
        · rcases ih hx' hy' with h | h
          · exact Or.inl (h.cons a)
          · exact Or.inr (h.cons a)

/-- Characterization of the sweep output: on a start-sorted work list, a
pair is recorded exactly when an open event is still running at the start
of a later work event, or two work events in order overlap at the start of
the later one. -/
theorem sweepAux_mem (i j : Nat) :
    ∀ rest opn : List Event, rest.Pairwise byStart →
      ((i, j) ∈ sweepAux opn rest ↔
        (∃ o ∈ opn, ∃ y ∈ rest, i = o.eid ∧ j = y.eid ∧ y.s < o.e) ∨
        (∃ x y : Event, [x, y].Sublist rest ∧ i = x.eid ∧ j = y.eid ∧ y.s < x.e)) := by
  intro rest
  induction rest with
  | nil =>
      intro opn _
      constructor
      · intro h; cases h
      · rintro (⟨o, _, y, hy, _⟩ | ⟨x, y, hsub, _⟩)
        · cases hy
        · have := hsub.length_le
          simp at this
  | cons a rest ih =>
      intro opn hp
      have hp' : rest.Pairwise byStart := List.Pairwise.of_cons hp
      have ha : ∀ y ∈ rest, a.s ≤ y.s := fun y hy => List.rel_of_pairwise_cons hp hy
      rw [sweepAux]
      simp only [List.mem_append, List.mem_map]
      rw [ih (opn.filter (fun o => decide (a.s < o.e)) ++ [a]) hp']
      constructor
      · rintro (⟨o, ho, hoeq⟩ | ⟨o, ho, y, hy, hi, hj, hlt⟩ | ⟨x, y, hsub, hi, hj, hlt⟩)
        · -- a pair recorded at this step: open event o still running at a
          rcases List.mem_filter.mp ho with ⟨homem, hrun⟩
          have hrun' : a.s < o.e := by simpa using hrun
          obtain ⟨h1, h2⟩ := Prod.mk.injEq _ _ _ _ ▸ hoeq
          exact Or.inl ⟨o, homem, a, List.mem_cons_self a rest, h1.symm, h2.symm, hrun'⟩
        · -- a pair from the recursive call with an open event
          rcases List.mem_append.mp ho with ho' | ho'
          · rcases List.mem_filter.mp ho' with ⟨homem, _⟩
            exact Or.inl ⟨o, homem, y, List.mem_cons_of_mem a hy, hi, hj, hlt⟩
          · have hoa : o = a := by simpa using ho'
            subst hoa
            exact Or.inr ⟨o, y, List.Sublist.cons₂ o (List.singleton_sublist.mpr hy),
              hi, hj, hlt⟩
        · exact Or.inr ⟨x, y, hsub.cons a, hi, hj, hlt⟩
      · rintro (⟨o, ho, y, hy, hi, hj, hlt⟩ | ⟨x, y, hsub, hi, hj, hlt⟩)
        · rcases List.mem_cons.mp hy with rfl | hy'
          · -- the later event is a itself: recorded at this step
            refine Or.inl ⟨o, List.mem_filter.mpr ⟨ho, by simpa using hlt⟩, ?_⟩
            simp [hi, hj]
          · -- the later event is deeper: o survives the eviction at a
            have hkeep : a.s < o.e := lt_of_le_of_lt (ha y hy') hlt
            exact Or.inr (Or.inl ⟨o,
              List.mem_append.mpr (Or.inl (List.mem_filter.mpr ⟨ho, by simpa using hkeep⟩)),
              y, hy', hi, hj, hlt⟩)
        · -- a sublist pair of a :: rest
          cases hsub with
          | cons _ hsub' =>
              exact Or.inr (Or.inr ⟨x, y, hsub', hi, hj, hlt⟩)
          | cons₂ _ hsub' =>
              -- x = a, y occurs in rest
              have hy' : y ∈ rest := List.singleton_sublist.mp hsub'
              exact Or.inr (Or.inl ⟨a, List.mem_append.mpr (Or.inr (by simp)),
                y, hy', hi, hj, hlt⟩)

/-- Membership in the detector output, phrased over the sorted event list:
a pair is recorded exactly for two events in sorted order whose later one
starts before the earlier one ends. -/
theorem detect_mem (l : List Event) (hwf : ∀ ev ∈ l, ev.s < ev.e) (i j : Nat) :
    (i, j) ∈ detectConflicts l ↔
      ∃ x y : Event, [x, y].Sublist (List.insertionSort byStart l) ∧
        i = x.eid ∧ j = y.eid ∧ y.s < x.e := by
  have hfil : l.filter (fun ev => decide (ev.s < ev.e)) = l := by
    rw [List.filter_eq_self]
    intro a ha
    simpa using hwf a ha
  unfold detectConflicts
  rw [hfil]
  rw [sweepAux_mem i j _ [] (List.sorted_insertionSort byStart l)]
  simp

/-- A recorded pair between two given events is exactly a strict overlap
between them. -/
theorem detect_pair_spec (l : List Event) (hwf : ∀ ev ∈ l, ev.s < ev.e)
    (hids : (l.map Event.eid).Nodup) (x y : Event) (hx : x ∈ l) (hy : y ∈ l)
    (hne : x.eid ≠ y.eid) :
    ((x.eid, y.eid) ∈ detectConflicts l ∨ (y.eid, x.eid) ∈ detectConflicts l) ↔
      evOverlaps x y = true := by
  have hperm : (List.insertionSort byStart l).Perm l := List.perm_insertionSort byStart l
  have hsorted : (List.insertionSort byStart l).Pairwise byStart :=
    List.sorted_insertionSort byStart l
  have hinj := List.inj_on_of_nodup_map hids
  constructor
  · rintro (hmem | hmem)
    · rcases (detect_mem l hwf _ _).mp hmem with ⟨u, v, hsub, hi, hj, hlt⟩
      have hu : u ∈ l := hperm.mem_iff.mp (hsub.subset (by simp))
      have hv : v ∈ l := hperm.mem_iff.mp (hsub.subset (by simp))
      have hux : u = x := hinj hu hx hi.symm
      have hvy : v = y := hinj hv hy hj.symm
      subst hux hvy
      have hxy : byStart u v := by
        have hpair := List.Pairwise.sublist hsub hsorted
        exact List.rel_of_pairwise_cons hpair (by simp)
      exact (evOverlaps_iff u v).mpr ⟨lt_of_le_of_lt hxy (hwf v hv), hlt⟩
    · rcases (detect_mem l hwf _ _).mp hmem with ⟨u, v, hsub, hi, hj, hlt⟩
      have hu : u ∈ l := hperm.mem_iff.mp (hsub.subset (by simp))
      have hv : v ∈ l := hperm.mem_iff.mp (hsub.subset (by simp))
      have huy : u = y := hinj hu hy hi.symm
      have hvx : v = x := hinj hv hx hj.symm
      subst huy hvx
      have hyx : byStart u v := by
        have hpair := List.Pairwise.sublist hsub hsorted
        exact List.rel_of_pairwise_cons hpair (by simp)
      exact (evOverlaps_iff v u).mpr ⟨hlt, lt_of_le_of_lt hyx (hwf v hv)⟩
  · intro hov
    rcases (evOverlaps_iff x y).mp hov with ⟨h1, h2⟩
    have hx' : x ∈ List.insertionSort byStart l := hperm.mem_iff.mpr hx
    have hy' : y ∈ List.insertionSort byStart l := hperm.mem_iff.mpr hy
    have hxy : x ≠ y := fun h => hne (h ▸ rfl)
    rcases pair_sublist_of_mem hx' hy' hxy with hsub | hsub
    · exact Or.inl ((detect_mem l hwf _ _).mpr ⟨x, y, hsub, rfl, rfl, h2⟩)
    · exact Or.inr ((detect_mem l hwf _ _).mpr ⟨y, x, hsub, rfl, rfl, h1⟩)

/-- C4 amended: on well-formed events with distinct ids, the sweep records
a pair exactly between strictly overlapping events and flags an event
exactly when some other event strictly overlaps it (the pairwise-scan
semantics); on the 9:00-10:00, 9:30-10:30, 10:00-11:00 example the first
two are mutually flagged, the second and third are mutually flagged (they
strictly overlap on 10:00-10:30), and the first and third are not flagged
against each other. -/
theorem conflict_detector_pairwise (l : List Event)
    (hwf : ∀ ev ∈ l, ev.s < ev.e) (hids : (l.map Event.eid).Nodup) :
    (∀ x ∈ l, ∀ y ∈ l, x.eid ≠ y.eid →
        (((x.eid, y.eid) ∈ detectConflicts l ∨ (y.eid, x.eid) ∈ detectConflicts l) ↔
          evOverlaps x y = true))
    ∧ (∀ x ∈ l, (conflicted (detectConflicts l) x.eid = true ↔
        ∃ y ∈ l, y.eid ≠ x.eid ∧ evOverlaps x y = true))
    ∧ detectConflicts [⟨1, 540, 600⟩, ⟨2, 570, 630⟩, ⟨3, 600, 660⟩] = [(1, 2), (2, 3)] := by
  have hperm : (List.insertionSort byStart l).Perm l := List.perm_insertionSort byStart l
  have hsorted : (List.insertionSort byStart l).Pairwise byStart :=
    List.sorted_insertionSort byStart l
  have hinj := List.inj_on_of_nodup_map hids
  have hSn : (List.insertionSort byStart l).Nodup := hperm.nodup_iff.mpr hids.of_map
  refine ⟨fun x hx y hy hne => detect_pair_spec l hwf hids x y hx hy hne, ?_, by decide⟩
  intro x hx
  constructor
  · intro hc
    rcases List.any_eq_true.mp hc with ⟨p, hp, hcase⟩
    rcases (detect_mem l hwf p.1 p.2).mp (by simpa using hp) with ⟨u, v, hsub, hi, hj, hlt⟩
    have hu : u ∈ l := hperm.mem_iff.mp (hsub.subset (by simp))
    have hv : v ∈ l := hperm.mem_iff.mp (hsub.subset (by simp))
    have huv : u ≠ v := by
      have : ([u, v] : List Event).Nodup := List.Nodup.sublist hsub hSn
      simp at this
      exact this
    have heid : u.eid ≠ v.eid := fun h => huv (hinj hu hv h)
    have hxy : byStart u v := by
      have hpair := List.Pairwise.sublist hsub hsorted
      exact List.rel_of_pairwise_cons hpair (by simp)
    rcases Bool.or_eq_true _ _ ▸ hcase with h1 | h2
    · have h1' : p.1 = x.eid := by simpa using h1
      have hux : u = x := hinj hu hx (by rw [← hi, h1'])
      subst hux
      refine ⟨v, hv, fun h => heid h.symm, ?_⟩
      exact (evOverlaps_iff u v).mpr ⟨lt_of_le_of_lt hxy (hwf v hv), hlt⟩
    · have h2' : p.2 = x.eid := by simpa using h2
      have hvx : v = x := hinj hv hx (by rw [← hj, h2'])
      subst hvx
      refine ⟨u, hu, heid, ?_⟩
      exact (evOverlaps_iff v u).mpr ⟨hlt, lt_of_le_of_lt hxy (hwf v hv)⟩
  · rintro ⟨y, hy, hyne, hov⟩
    have hpair := (detect_pair_spec l hwf hids x y hx hy (fun h => hyne h.symm)).mpr hov
    rcases hpair with hmem | hmem
    · exact List.any_eq_true.mpr ⟨(x.eid, y.eid), hmem, by simp⟩
    · exact List.any_eq_true.mpr ⟨(y.eid, x.eid), hmem, by simp⟩

/-- C4 counterexample: in the example of the specification the second and
third events strictly overlap, so the third is flagged, contrary to the
stated expectation that it is flagged against neither. -/
theorem conflict_example_counterexample :
    conflicted (detectConflicts [⟨1, 540, 600⟩, ⟨2, 570, 630⟩, ⟨3, 600, 660⟩]) 3 = true
    ∧ evOverlaps ⟨2, 570, 630⟩ ⟨3, 600, 660⟩ = true
    ∧ (2, 3) ∈ detectConflicts [⟨1, 540, 600⟩, ⟨2, 570, 630⟩, ⟨3, 600, 660⟩] := by
  decide

/-- Witness for conflict_detector_pairwise on the three example events. -/
theorem conflict_detector_pairwise_witness :
    conflicted (detectConflicts [⟨1, 540, 600⟩, ⟨2, 570, 630⟩, ⟨3, 600, 660⟩]) 1 = true ↔
      ∃ y ∈ [(⟨1, 540, 600⟩ : Event), ⟨2, 570, 630⟩, ⟨3, 600, 660⟩],
        y.eid ≠ 1 ∧ evOverlaps ⟨1, 540, 600⟩ y = true :=
  (conflict_detector_pairwise [⟨1, 540, 600⟩, ⟨2, 570, 630⟩, ⟨3, 600, 660⟩]
    (by decide) (by decide)).2.1 ⟨1, 540, 600⟩ (by decide)

/-- A mapping table is up to date for a work item when the key lookup finds
a row carrying the current source range. -/
def upToDate (m : List Mapping) (it : MirrorItem) : Prop :=
  ∃ r, m.find? (rowMatches it) = some r ∧ r.obsS = it.s ∧ r.obsE = it.e

/-- Searching an appended list starts with the first part. -/
theorem find?_append_none {α : Type} (p : α → Bool) (l₁ l₂ : List α)
    (h : l₁.find? p = none) : (l₁ ++ l₂).find? p = l₂.find? p := by
  induction l₁ with
  | nil => simp
  | cons a l ih =>
      rw [List.find?_cons] at h
      rcases hp : p a with _ | _
      · rw [List.cons_append, List.find?_cons, hp]
        exact ih (by rwa [hp] at h)
      · rw [hp] at h
        cases h

/-- A hit in the first part of an appended list is the overall hit. -/
theorem find?_append_some {α : Type} (p : α → Bool) (l₁ l₂ : List α) (a : α)
    (h : l₁.find? p = some a) : (l₁ ++ l₂).find? p = some a := by
  induction l₁ with
  | nil => cases h
  | cons b l ih =>
      rw [List.find?_cons] at h
      rcases hp : p b with _ | _
      · rw [hp] at h
        rw [List.cons_append, List.find?_cons, hp]
        exact ih h
      · rw [hp] at h
        rw [List.cons_append, List.find?_cons, hp]
        exact h

/-- Updating the observed range never changes which item keys a row
carries. -/
theorem rowMatches_updRow (it it' : MirrorItem) (r : Mapping) :
    rowMatches it (updRow it' r) = rowMatches it r := by
  unfold updRow
  split_ifs with h
  · simp [rowMatches]
  · rfl

/-- Two items matching one row share their idempotency key. -/
theorem itemKey_eq_of_matches (it it' : MirrorItem) (r : Mapping)
    (h : rowMatches it r = true) (h' : rowMatches it' r = true) :
    itemKey it = itemKey it' := by
  simp only [rowMatches, Bool.and_eq_true, decide_eq_true_eq] at h h'
  simp only [itemKey, Prod.mk.injEq]
  omega

/-- Looking the key up after an update of the same key returns the updated
row. -/
theorem find?_map_updRow (it : MirrorItem) :
    ∀ m : List Mapping,
      (m.map (updRow it)).find? (rowMatches it) =
        (m.find? (rowMatches it)).map (updRow it) := by
  intro m
  induction m with
  | nil => simp
  | cons r m ih =>
      rcases hr : rowMatches it r with _ | _
      · rw [List.map_cons, List.find?_cons, rowMatches_updRow, hr,
          List.find?_cons, hr, ih]
      · rw [List.map_cons, List.find?_cons, rowMatches_updRow, hr,
          List.find?_cons, hr]
        simp

/-- Processing a work item leaves its own mapping present and carrying the
current source range. -/
theorem processItem_upToDate (m : List Mapping) (it : MirrorItem) :
    upToDate (processItem m it).2 it := by
  unfold processItem
  rcases h : m.find? (rowMatches it) with _ | mp
  · refine ⟨⟨it.src, it.ext, it.tgt, it.s, it.e⟩, ?_, rfl, rfl⟩
    rw [find?_append_none _ _ _ h]
    simp [List.find?_cons, rowMatches]
  · dsimp only
    by_cases hch : mp.obsS = it.s ∧ mp.obsE = it.e
    · exact ⟨mp, by rw [if_pos hch]; exact h, hch.1, hch.2⟩
    · refine ⟨updRow it mp, ?_, ?_, ?_⟩
      · rw [if_neg hch]
        dsimp only
        rw [find?_map_updRow, h]
        rfl
      · have := List.find?_some h
        simp [updRow, this]
      · have := List.find?_some h
        simp [updRow, this]

/-- Updating rows of one key leaves lookups of any other key untouched. -/
theorem find?_map_updRow_other (it it' : MirrorItem)
    (hne : itemKey it' ≠ itemKey it) :
    ∀ m : List Mapping,
      (m.map (updRow it)).find? (rowMatches it') = m.find? (rowMatches it') := by
  intro m
  induction m with
  | nil => simp
  | cons r m ih =>
      rcases hr : rowMatches it' r with _ | _
      · rw [List.map_cons, List.find?_cons, rowMatches_updRow, hr,
          List.find?_cons, hr]
        exact ih
      · rw [List.map_cons, List.find?_cons, rowMatches_updRow, hr,
          List.find?_cons, hr]
        have hrit : rowMatches it r = false := by
          rcases hb : rowMatches it r with _ | _
          · rfl
          · exact absurd (itemKey_eq_of_matches it' it r hr hb) hne
        simp [updRow, hrit]

/-- Processing a work item with a different key does not disturb a key
lookup. -/
theorem processItem_find?_other (m : List Mapping) (it it' : MirrorItem)
    (hne : itemKey it' ≠ itemKey it) :
    (processItem m it).2.find? (rowMatches it') = m.find? (rowMatches it') := by
  unfold processItem
  rcases h : m.find? (rowMatches it) with _ | mp
  · dsimp only
    have hnew : rowMatches it' (⟨it.src, it.ext, it.tgt, it.s, it.e⟩ : Mapping) = false := by
      rcases hb : rowMatches it' ⟨it.src, it.ext, it.tgt, it.s, it.e⟩ with _ | _
      · rfl
      · exfalso
        apply hne
        have hown : rowMatches it (⟨it.src, it.ext, it.tgt, it.s, it.e⟩ : Mapping) = true := by
          simp [rowMatches]
        exact (itemKey_eq_of_matches it' it _ hb hown)
    rcases h' : m.find? (rowMatches it') with _ | r
    · rw [find?_append_none _ _ _ h']
      simp [hnew]
    · exact find?_append_some _ _ _ _ h'
  · dsimp only
    by_cases hch : mp.obsS = it.s ∧ mp.obsE = it.e
    · rw [if_pos hch]
    · rw [if_neg hch]
      exact find?_map_updRow_other it it' hne m

/-- Processing a batch of work items with other keys does not disturb a key
lookup. -/
theorem processItems_find?_other (it : MirrorItem) :
    ∀ (items : List MirrorItem) (m : List Mapping),
      itemKey it ∉ items.map itemKey →
      (processItems items m).2.find? (rowMatches it) = m.find? (rowMatches it) := by
  intro items
  induction items with
  | nil => intro m _; rfl
  | cons a rest ih =>
      intro m hnot
      rw [List.map_cons, List.mem_cons] at hnot
      push_neg at hnot
      show (processItems rest (processItem m a).2).2.find? (rowMatches it) = _
      rw [ih (processItem m a).2 hnot.2]
      exact processItem_find?_other m a it hnot.1

/-- After one run over a work list with pairwise-distinct keys, every item
in the list is up to date in the resulting mapping table. -/
theorem processItems_upToDate :
    ∀ (items : List MirrorItem) (m : List Mapping),
      (items.map itemKey).Nodup →
      ∀ it ∈ items, upToDate (processItems items m).2 it := by
  intro items
  induction items with
  | nil => intro m _ it hit; cases hit
  | cons a rest ih =>
      intro m hnd it hit
      rw [List.map_cons, List.nodup_cons] at hnd
      rcases List.mem_cons.mp hit with rfl | hit'
      · rcases processItem_upToDate m it with ⟨r, hr, h1, h2⟩
        refine ⟨r, ?_, h1, h2⟩
        show (processItems rest (processItem m it).2).2.find? (rowMatches it) = some r
        rw [processItems_find?_other it rest (processItem m it).2 hnd.1]
        exact hr
      · exact ih (processItem m a).2 hnd.2 it hit'

/-- A run over a work list whose items are all up to date performs zero
writes and leaves the table unchanged. -/
theorem processItems_noop :
    ∀ (items : List MirrorItem) (m : List Mapping),
      (∀ it ∈ items, upToDate m it) →
      processItems items m = (0, m) := by
  intro items
  induction items with
  | nil => intro m _; rfl
  | cons a rest ih =>
      intro m hall
      rcases hall a (List.mem_cons_self a rest) with ⟨r, hr, h1, h2⟩
      have hpa : processItem m a = (0, m) := by
        unfold processItem
        rw [hr]
        dsimp only
        rw [if_pos ⟨h1, h2⟩]
      show (let p := processItem m a
        let q := processItems rest p.2
        (p.1 + q.1, q.2)) = (0, m)
      rw [hpa]
      dsimp only
      rw [ih m (fun it hit => hall it (List.mem_cons_of_mem a hit))]
      rfl

/-- C5: running the mirror sync engine a second time with unchanged sources
performs zero writes and leaves the mapping table exactly as the first run
left it, provided the work items carry pairwise-distinct idempotency keys
(the uniqueness invariant of external event ids within an account). -/
theorem mirror_sync_idempotent (accounts : List Nat) (events : List SrcEvent)
    (m0 : List Mapping)
    (hkeys : ((itemsOf accounts events).map itemKey).Nodup) :
    syncMirrors accounts events (syncMirrors accounts events m0).2 =
      (0, (syncMirrors accounts events m0).2) := by
  unfold syncMirrors
  exact processItems_noop _ _ (processItems_upToDate (itemsOf accounts events) m0 hkeys)

/-- Witness for mirror_sync_idempotent: two accounts, one real source
event, empty initial table. -/
theorem mirror_sync_idempotent_witness :
    syncMirrors [1, 2] [⟨1, 10, 100, 200, false⟩]
        (syncMirrors [1, 2] [⟨1, 10, 100, 200, false⟩] []).2 =
      (0, (syncMirrors [1, 2] [⟨1, 10, 100, 200, false⟩] []).2) :=
  mirror_sync_idempotent [1, 2] [⟨1, 10, 100, 200, false⟩] [] (by decide)

/-- When no pending or confirmed row holds the reservation key, finalizing
changes nothing. -/
theorem finalize_noop (extOk : Bool) (ow : Nat) (slot : Ival) (st : List Booking)
    (hguard : reserveGuard st ow slot = false) :
    finalize extOk ow slot st = st := by
  unfold reserveGuard at hguard
  rw [List.any_eq_false] at hguard
  unfold finalize
  have h : ∀ b ∈ st,
      (if b.owner = ow ∧ b.slot.s = slot.s ∧ b.status = BStatus.pending then
        { b with status := if extOk then BStatus.confirmed else BStatus.failed }
      else b) = b := by
    intro b hb
    have hb2 := hguard b hb
    simp only [Bool.and_eq_true, Bool.or_eq_true, decide_eq_true_eq] at hb2
    rw [if_neg]
    intro hcond
    exact hb2 ⟨⟨hcond.1, hcond.2.1⟩, Or.inl hcond.2.2⟩
  rw [List.map_congr_left h]
  simp

/-- When no pending or confirmed row holds the reservation key, no
confirmed booking for that owner and slot exists. -/
theorem guard_count_zero (st : List Booking) (ow : Nat) (slot : Ival)
    (hguard : reserveGuard st ow slot = false) :
    countConfirmed st ow slot = 0 := by
  unfold reserveGuard at hguard
  rw [List.any_eq_false] at hguard
  unfold countConfirmed
  rw [List.length_eq_zero, List.filter_eq_nil_iff]
  intro b hb
  have hb2 := hguard b hb
  simp only [Bool.and_eq_true, Bool.or_eq_true, decide_eq_true_eq] at hb2 ⊢
  intro hcond
  rcases hcond with ⟨⟨h1, h2⟩, h3⟩
  exact hb2 ⟨⟨h1, by rw [h2]⟩, Or.inr h3⟩

/-- Prepending a row adds one to the confirmed count exactly when the row
is a confirmed booking of that owner and slot. -/
theorem countConfirmed_cons (b : Booking) (st : List Booking) (o : Nat) (sl : Ival) :
    countConfirmed (b :: st) o sl =
      (if b.owner = o ∧ b.slot = sl ∧ b.status = BStatus.confirmed then 1 else 0) +
        countConfirmed st o sl := by
  unfold countConfirmed
  rw [List.filter_cons]
  by_cases h : b.owner = o ∧ b.slot = sl ∧ b.status = BStatus.confirmed
  · have hp : (decide (b.owner = o) && decide (b.slot = sl) &&
        decide (b.status = BStatus.confirmed)) = true := by
      simp [h.1, h.2.1, h.2.2]
    rw [hp, if_pos rfl, if_pos h, List.length_cons]
    omega
  · have hp : (decide (b.owner = o) && decide (b.slot = sl) &&
        decide (b.status = BStatus.confirmed)) = false := by
      rcases hb : (decide (b.owner = o) && decide (b.slot = sl) &&
          decide (b.status = BStatus.confirmed)) with _ | _
      · rfl
      · exfalso
        apply h
        simp only [Bool.and_eq_true, decide_eq_true_eq] at hb
        exact ⟨hb.1.1, hb.1.2, hb.2⟩
    rw [hp, if_neg h, if_neg Bool.false_ne_true]
    omega

/-- A failed recheck returns SlotUnavailable and leaves the state alone. -/
theorem bookSlot_checkFail (windows busy : List Ival) (now dur : Nat) (extOk : Bool)
    (ow : Nat) (slot : Ival) (snap st : List Booking)
    (hc : checkOk windows busy now dur snap ow slot = false) :
    bookSlot windows busy now dur extOk ow slot snap st =
      (BookResult.slotUnavailable, st) := by
  simp [bookSlot, hc]

/-- A lost reservation returns SlotUnavailable and leaves the state alone. -/
theorem bookSlot_guardFail (windows busy : List Ival) (now dur : Nat) (extOk : Bool)
    (ow : Nat) (slot : Ival) (snap st : List Booking)
    (hc : checkOk windows busy now dur snap ow slot = true)
    (hg : reserveGuard st ow slot = true) :
    bookSlot windows busy now dur extOk ow slot snap st =
      (BookResult.slotUnavailable, st) := by
  simp [bookSlot, hc, reserve, hg]

/-- A won reservation with a successful provider call confirms the new
booking. -/
theorem bookSlot_won_true (windows busy : List Ival) (now dur : Nat)
    (ow : Nat) (slot : Ival) (snap st : List Booking)
    (hc : checkOk windows busy now dur snap ow slot = true)
    (hg : reserveGuard st ow slot = false) :
    bookSlot windows busy now dur true ow slot snap st =
      (BookResult.booked, finalize true ow slot (⟨ow, slot, BStatus.pending⟩ :: st)) := by
  simp [bookSlot, hc, reserve, hg]

/-- A won reservation with a failed provider call rolls the new booking to
failed and surfaces the error. -/
theorem bookSlot_won_false (windows busy : List Ival) (now dur : Nat)
    (ow : Nat) (slot : Ival) (snap st : List Booking)
    (hc : checkOk windows busy now dur snap ow slot = true)
    (hg : reserveGuard st ow slot = false) :
    bookSlot windows busy now dur false ow slot snap st =
      (BookResult.providerFailed,
        finalize false ow slot (⟨ow, slot, BStatus.pending⟩ :: st)) := by
  simp [bookSlot, hc, reserve, hg]

/-- C1: under the booking transactor, a free slot is won by the first
reservation; a second invocation for the identical slot, whatever state
snapshot its recheck saw and whatever its provider outcome, is rejected
with SlotUnavailable and changes nothing; exactly one confirmed booking
results; a provider failure marks the booking failed and releases the slot
so an immediate retry succeeds; and any invocation preserves the at most
one confirmed booking per owner and slot invariant. -/
theorem booking_transactor_race
    (windows busy : List Ival) (now dur ow : Nat) (slot : Ival) (s0 : List Booking)
    (hwf : slot.s < slot.e)
    (hfree : slot ∈ computeSlots windows busy now dur)
    (hno : holdsOverlapping s0 ow slot = false)
    (hguard : reserveGuard s0 ow slot = false) :
    (bookSlot windows busy now dur true ow slot s0 s0 =
        (BookResult.booked, ⟨ow, slot, BStatus.confirmed⟩ :: s0))
    ∧ (∀ extOk2 : Bool,
        ∀ snap ∈ [s0, ⟨ow, slot, BStatus.confirmed⟩ :: s0],
          bookSlot windows busy now dur extOk2 ow slot snap
              (⟨ow, slot, BStatus.confirmed⟩ :: s0) =
            (BookResult.slotUnavailable, ⟨ow, slot, BStatus.confirmed⟩ :: s0))
    ∧ countConfirmed (⟨ow, slot, BStatus.confirmed⟩ :: s0) ow slot = 1
    ∧ ((bookSlot windows busy now dur false ow slot s0 s0).1 = BookResult.providerFailed
        ∧ (bookSlot windows busy now dur true ow slot
            (bookSlot windows busy now dur false ow slot s0 s0).2
            (bookSlot windows busy now dur false ow slot s0 s0).2).1 = BookResult.booked)
    ∧ (∀ (extOk : Bool) (ow2 : Nat) (slot2 : Ival) (snap st : List Booking),
        (∀ (o : Nat) (sl : Ival), countConfirmed st o sl ≤ 1) →
        ∀ (o : Nat) (sl : Ival),
          countConfirmed (bookSlot windows busy now dur extOk ow2 slot2 snap st).2 o sl ≤ 1) := by
  have hcheck0 : checkOk windows busy now dur s0 ow slot = true := by
    unfold checkOk
    rw [hno]
    simp [hfree]
  have hfinT : finalize true ow slot (⟨ow, slot, BStatus.pending⟩ :: s0) =
      ⟨ow, slot, BStatus.confirmed⟩ :: s0 := by
    unfold finalize
    rw [List.map_cons]
    congr 1
    · simp
    · exact finalize_noop true ow slot s0 hguard
  have hfinF : finalize false ow slot (⟨ow, slot, BStatus.pending⟩ :: s0) =
      ⟨ow, slot, BStatus.failed⟩ :: s0 := by
    unfold finalize
    rw [List.map_cons]
    congr 1
    · simp
    · exact finalize_noop false ow slot s0 hguard
  have hb1 : bookSlot windows busy now dur true ow slot s0 s0 =
      (BookResult.booked, ⟨ow, slot, BStatus.confirmed⟩ :: s0) := by
    rw [bookSlot_won_true windows busy now dur ow slot s0 s0 hcheck0 hguard, hfinT]
  have hg1 : reserveGuard (⟨ow, slot, BStatus.confirmed⟩ :: s0) ow slot = true := by
    unfold reserveGuard
    rw [List.any_cons]
    simp
  have hh1 : holdsOverlapping (⟨ow, slot, BStatus.confirmed⟩ :: s0) ow slot = true := by
    unfold holdsOverlapping
    rw [List.any_cons]
    simp [overlaps, hwf]
  refine ⟨hb1, ?_, ?_, ?_, ?_⟩
  · intro extOk2 snap hsnap
    rcases List.mem_cons.mp hsnap with rfl | hsnap'
    · -- the loser checked against the pre-race snapshot and loses at reserve
      exact bookSlot_guardFail windows busy now dur extOk2 ow slot snap _ hcheck0 hg1
    · have hs1 : snap = ⟨ow, slot, BStatus.confirmed⟩ :: s0 := by simpa using hsnap'
      subst hs1
      -- the loser checked against the post-win state and fails the recheck
      have hc1 : checkOk windows busy now dur
          (⟨ow, slot, BStatus.confirmed⟩ :: s0) ow slot = false := by
        unfold checkOk
        rw [hh1]
        simp
      exact bookSlot_checkFail windows busy now dur extOk2 ow slot _ _ hc1
  · rw [countConfirmed_cons]
    simp [guard_count_zero s0 ow slot hguard]
  · have hbF : bookSlot windows busy now dur false ow slot s0 s0 =
        (BookResult.providerFailed, ⟨ow, slot, BStatus.failed⟩ :: s0) := by
      rw [bookSlot_won_false windows busy now dur ow slot s0 s0 hcheck0 hguard, hfinF]
    rw [hbF]
    refine ⟨rfl, ?_⟩
    have hhF : holdsOverlapping (⟨ow, slot, BStatus.failed⟩ :: s0) ow slot = false := by
      unfold holdsOverlapping at hno ⊢
      rw [List.any_cons]
      simp [hno]
    have hgF : reserveGuard (⟨ow, slot, BStatus.failed⟩ :: s0) ow slot = false := by
      unfold reserveGuard at hguard ⊢
      rw [List.any_cons]
      simp [hguard]
    have hcF : checkOk windows busy now dur
        (⟨ow, slot, BStatus.failed⟩ :: s0) ow slot = true := by
      unfold checkOk
      rw [hhF]
      simp [hfree]
    rw [bookSlot_won_true windows busy now dur ow slot _ _ hcF hgF]
  · intro extOk ow2 slot2 snap st hinv o sl
    rcases hc : checkOk windows busy now dur snap ow2 slot2 with _ | _
    · rw [bookSlot_checkFail windows busy now dur extOk ow2 slot2 snap st hc]
      exact hinv o sl
    · rcases hg : reserveGuard st ow2 slot2 with _ | _
      · have hfin2T : finalize true ow2 slot2 (⟨ow2, slot2, BStatus.pending⟩ :: st) =
            ⟨ow2, slot2, BStatus.confirmed⟩ :: st := by
          unfold finalize
          rw [List.map_cons]
          congr 1
          · simp
          · exact finalize_noop true ow2 slot2 st hg
        have hfin2F : finalize false ow2 slot2 (⟨ow2, slot2, BStatus.pending⟩ :: st) =
            ⟨ow2, slot2, BStatus.failed⟩ :: st := by
          unfold finalize
          rw [List.map_cons]
          congr 1
          · simp
          · exact finalize_noop false ow2 slot2 st hg
        rcases extOk with _ | _
        · rw [bookSlot_won_false windows busy now dur ow2 slot2 snap st hc hg]
          dsimp only
          rw [hfin2F, countConfirmed_cons]
          have hne : ¬((⟨ow2, slot2, BStatus.failed⟩ : Booking).owner = o ∧
              (⟨ow2, slot2, BStatus.failed⟩ : Booking).slot = sl ∧
              (⟨ow2, slot2, BStatus.failed⟩ : Booking).status = BStatus.confirmed) := by
            rintro ⟨-, -, h3⟩
            cases h3
          rw [if_neg hne]
          simpa using hinv o sl
        · rw [bookSlot_won_true windows busy now dur ow2 slot2 snap st hc hg]
          dsimp only
          rw [hfin2T, countConfirmed_cons]
          by_cases hos : (⟨ow2, slot2, BStatus.confirmed⟩ : Booking).owner = o ∧
              (⟨ow2, slot2, BStatus.confirmed⟩ : Booking).slot = sl ∧
              (⟨ow2, slot2, BStatus.confirmed⟩ : Booking).status = BStatus.confirmed
          · rw [if_pos hos]
            have h0 : countConfirmed st ow2 slot2 = 0 := guard_count_zero st ow2 slot2 hg
            have hoeq : ow2 = o := hos.1
            have hseq : slot2 = sl := hos.2.1
            rw [← hoeq, ← hseq, h0]
          · rw [if_neg hos]
            simpa using hinv o sl
      · rw [bookSlot_guardFail windows busy now dur extOk ow2 slot2 snap st hc hg]
        exact hinv o sl

/-- Witness for booking_transactor_race: the Monday example slot booked
from an empty booking table. -/
theorem booking_transactor_race_witness :
    bookSlot [⟨600, 1080⟩] [⟨840, 900⟩] 0 30 true 7 ⟨600, 630⟩ [] [] =
      (BookResult.booked, [⟨7, ⟨600, 630⟩, BStatus.confirmed⟩]) :=
  (booking_transactor_race [⟨600, 1080⟩] [⟨840, 900⟩] 0 30 7 ⟨600, 630⟩ []
    (by decide) (by decide) (by decide) (by decide)).1

end CalendarSys
